import Mathlib

/-!
Verification of the board_game_helper collection pipeline
(`collection/collection.go`): the poll-classification algorithm
(`parsePolls`), the enrichment fan-out (`fetchCollection`), and the
embedded-statistics extractor (`jsonDecode`), shallowly embedded in Lean.

Strings from the feed are modelled as `List Char`; Go `int` is modelled
as `Int` with the explicit 64-bit range check that `strconv.Atoi`
performs; Go `float64` statistics parsed from decimal strings are
modelled as exact rationals.
-/

/-! ### Go `strconv.Atoi` on player-count labels -/

/-! ### Data model (`collection/collection.go` types) -/

/-! ### `parsePolls` -/

/-! ### Derived per-row views used in specifications -/

/-! ### `fetchCollection` result assembly -/

/-! ### `jsonDecode`: the embedded-statistics extractor -/

namespace BGH

/-- Accumulate a base-10 natural number; `none` when a non-digit occurs.
Transcribes the digit loop of `strconv.Atoi` (base 10, ASCII digits only). -/
def digitsVal (ds : List Char) : Option Nat :=
  ds.foldl
    (fun acc c =>
      match acc with
      | none => none
      | some n => if c.isDigit then some (n * 10 + (c.toNat - 48)) else none)
    (some 0)

/-- `strconv.Atoi`: optional sign, then one or more decimal digits, with the
64-bit `int` range check (`math.MaxInt64` positive, `math.MinInt64` negative). -/
def goAtoi (s : List Char) : Option Int :=
  match s with
  | [] => none
  | '+' :: rest =>
    if rest = [] then none
    else (digitsVal rest).bind fun n =>
      if n ≤ 2 ^ 63 - 1 then some (n : Int) else none
  | '-' :: rest =>
    if rest = [] then none
    else (digitsVal rest).bind fun n =>
      if n ≤ 2 ^ 63 then some (-(n : Int)) else none
  | _ => (digitsVal s).bind fun n =>
      if n ≤ 2 ^ 63 - 1 then some (n : Int) else none

/-- `strings.HasSuffix(s, "+")`. -/
def hasSuffixPlus (s : List Char) : Bool := s.getLast? = some '+'

/-- `strings.TrimSuffix(s, "+")`: drop one trailing `'+'` when present. -/
def trimSuffixPlus (s : List Char) : List Char :=
  if hasSuffixPlus s then s.dropLast else s

/-- One `<name>` entry of the game metadata feed.  The source field `Type`
is renamed `Kind` because `Type` is a Lean keyword. -/
structure GameName where
  Name : List Char
  Kind : List Char
deriving DecidableEq

/-- One row of a poll: the player-count label (`numplayers` attribute) and the
vote entries in feed order (`best`, `recommended`, `not recommended`). -/
structure PollRow where
  NumPlayers : List Char
  Votes : List Int
deriving DecidableEq

/-- A poll of the game metadata feed. -/
structure Poll where
  Name : List Char
  TotalVotes : Int
  Results : List PollRow
deriving DecidableEq

/-- The decoded game metadata document (`gameXML`). -/
structure GameXML where
  Names : List GameName
  PrimaryName : List Char
  Description : List Char
  MinPlayers : Int
  MaxPlayers : Int
  Polls : List Poll
deriving DecidableEq

/-- The statistics record decoded from the embedded JSON (`gameJSON`);
float64 fields modelled as rationals. -/
structure GameJSON where
  Score : ℚ
  Weight : ℚ
  BScore : ℚ
  Ratings : Int
deriving DecidableEq

/-- The merged per-game record (`game`). -/
structure Game where
  Name : List Char
  ID : List Char
  Best : Bool
  Rec : Bool
  MinPlayers : Int
  MaxPlayers : Int
  Score : ℚ
  Weight : ℚ
  BScore : ℚ
  Ratings : Int
deriving DecidableEq

/-- Outcome of `parsePolls`: a Go runtime panic (out-of-bounds vote index),
the `strconv.Atoi` failure propagated as an error, or the two booleans. -/
inductive PollsOutcome where
  | panicked
  | parseErr
  | ok (bestAt recAt : Bool)
deriving DecidableEq

/-- The poll-selection loop of `parsePolls`: the last poll named
`suggested_numplayers` wins (each match overwrites `playerPoll`). -/
def selectPlayerPoll (polls : List Poll) : Option Poll :=
  polls.foldl
    (fun acc p => if p.Name = "suggested_numplayers".data then some p else acc)
    none

/-- The row loop of `parsePolls`, with the sticky `bestAt` named return
threaded as `acc`.  Each iteration indexes `Votes[0]`, `Votes[1]`,
`Votes[2]` (panic when fewer than three entries), converts the label with
`Atoi` after trimming a `"+"` suffix, skips the row when
`best + recommended ≤ notRecommended`, sets `bestAt` when
`best > recommended`, and returns `(bestAt, !bestAt)` when the row matches
the target (`"+"` rows match when `numPlayers*2 ≥ target`, plain rows when
`numPlayers = target`). -/
def scanRows (targetPlayers : Int) : List PollRow → Bool → PollsOutcome
  | [], _ => .ok false false
  | pc :: rest, bestAt =>
    match pc.Votes with
    | bestV :: recV :: nayV :: _ =>
      match goAtoi (trimSuffixPlus pc.NumPlayers) with
      | none => .parseErr
      | some numPlayers =>
        if bestV + recV ≤ nayV then
          scanRows targetPlayers rest bestAt
        else
          if hasSuffixPlus pc.NumPlayers = true ∧ targetPlayers ≤ numPlayers * 2 then
            .ok (if recV < bestV then true else bestAt)
              (!(if recV < bestV then true else bestAt))
          else if numPlayers = targetPlayers then
            .ok (if recV < bestV then true else bestAt)
              (!(if recV < bestV then true else bestAt))
          else
            scanRows targetPlayers rest (if recV < bestV then true else bestAt)
    | _ => .panicked

/-- `(*gameXML).parsePolls`: select the suggested-player-count poll (absence
yields `(false, false)` with no error) and run the row scan with the sticky
`bestAt` flag starting `false`. -/
def parsePolls (gx : GameXML) (targetPlayers : Int) : PollsOutcome :=
  match selectPlayerPoll gx.Polls with
  | none => .ok false false
  | some p => scanRows targetPlayers p.Results false

/-- The rows of the selected suggested-player-count poll (empty when absent). -/
def selectedRows (gx : GameXML) : List PollRow :=
  match selectPlayerPoll gx.Polls with
  | none => []
  | some p => p.Results

/-- `Votes[0]` of a row (best votes). -/
def bestVotes (r : PollRow) : Int := r.Votes.getD 0 0

/-- `Votes[1]` of a row (recommended votes). -/
def recVotes (r : PollRow) : Int := r.Votes.getD 1 0

/-- `Votes[2]` of a row (not-recommended votes). -/
def nayVotes (r : PollRow) : Int := r.Votes.getD 2 0

/-- The integer value of the row's player-count label, after trimming a
trailing `'+'`; `none` when `Atoi` fails. -/
def labelVal (r : PollRow) : Option Int := goAtoi (trimSuffixPlus r.NumPlayers)

/-- The vote floor: the row is considered only when
`best + recommended > notRecommended`. -/
def passesFloor (r : PollRow) : Bool :=
  decide (nayVotes r < bestVotes r + recVotes r)

/-- Whether a (floor-passing) row makes `parsePolls` return: an or-more row
matches when `target ≤ count*2`, any row matches when `count = target`. -/
def rowMatches (t : Int) (r : PollRow) : Bool :=
  match labelVal r with
  | none => false
  | some k => (hasSuffixPlus r.NumPlayers && decide (t ≤ k * 2)) || decide (k = t)

/-- Whether a row turns the sticky `bestAt` flag on: it passes the vote floor
and has strictly more best than recommended votes. -/
def goodBest (r : PollRow) : Bool :=
  passesFloor r && decide (recVotes r < bestVotes r)

/-- The sticky `bestAt` value accumulated over a list of scanned rows. -/
def stickyBest (rows : List PollRow) : Bool := rows.any goodBest

/-- The final loop of `fetchCollection`: walk `allGames` and return the whole
slice (holes included) as soon as one non-nil entry is seen; otherwise fail
with the aggregate error. -/
def checkGames (allGames : List (Option Game)) :
    List (Option Game) → Except String (List (Option Game))
  | [] => .error "no valid games found"
  | some _ :: _ => .ok allGames
  | none :: rest => checkGames allGames rest

/-- The fan-out of `fetchCollection` after the feed decode: one slot per
item, slot `i` holding `fetchGame`'s result for item `i` (`none` models the
nil left by a failed enrichment), then the `checkGames` loop.  The per-item
enrichment (network fetch + decode) is abstracted as `fetchGame`. -/
def enrichAll (fetchGame : List Char → Option Game) (items : List (List Char)) :
    Except String (List (Option Game)) :=
  let allGames := items.map fetchGame
  checkGames allGames allGames

deriving instance DecidableEq for Except

/-- Example game record used in concrete instantiations. -/
def gSample : Game := ⟨"g".data, "b".data, true, false, 2, 4, mkRat 15 2, mkRat 23 10, mkRat 71 10, 1000⟩

/-- A per-item enrichment in which every item fails. -/
def enrichNone : List Char → Option Game := fun _ => none

/-- A per-item enrichment in which exactly the item `"b"` succeeds. -/
def enrichSecond : List Char → Option Game :=
  fun i => if i = "b".data then some gSample else none

/-- A game document whose suggested-player-count poll has a floor-passing,
best-heavy row for 2 players before the row for 3 players in which
recommended wins. -/
def gxSticky : GameXML :=
  ⟨[], [], [], 2, 4,
    [⟨"suggested_numplayers".data, 10,
      [⟨"2".data, [5, 0, 0]⟩, ⟨"3".data, [0, 5, 0]⟩]⟩]⟩

/-- A game document whose poll has a single tied row for 5 players. -/
def gxTie : GameXML :=
  ⟨[], [], [], 2, 5,
    [⟨"suggested_numplayers".data, 10, [⟨"5".data, [5, 5, 0]⟩]⟩]⟩

/-- The `"6+"` row of the open-range matching example. -/
def row6plus : PollRow := ⟨"6+".data, [10, 0, 0]⟩

/-- The spec's vote-floor example row (`best=2, recommended=1,
notRecommended=3`). -/
def rowFloor : PollRow := ⟨"3".data, [2, 1, 3]⟩

/-- A game document with no `suggested_numplayers` poll at all. -/
def gxNoPoll : GameXML :=
  ⟨[], [], [], 2, 4, [⟨"language_dependence".data, 10, [⟨"2".data, [5, 0, 0]⟩]⟩]⟩

/-- A game document whose poll's first row has a non-numeric label. -/
def gxBadLabel : GameXML :=
  ⟨[], [], [], 2, 4,
    [⟨"suggested_numplayers".data, 10, [⟨"x".data, [2, 1, 3]⟩]⟩]⟩

/-- A game document whose poll has a row with only two vote entries. -/
def gxShortRow : GameXML :=
  ⟨[], [], [], 2, 4,
    [⟨"suggested_numplayers".data, 10, [⟨"4".data, [1, 2]⟩]⟩]⟩

/-- Whether `pat` is a prefix of `s` (byte-wise comparison). -/
def startsWith : List Char → List Char → Bool
  | [], _ => true
  | _ :: _, [] => false
  | p :: ps, c :: cs => p == c && startsWith ps cs

/-- Go `bytes.Index`: the first index at which `pat` occurs in the buffer. -/
def firstIndexOf (pat : List Char) : List Char → Option Nat
  | [] => if pat.isEmpty then some 0 else none
  | c :: rest =>
    if startsWith pat (c :: rest) then some 0
    else (firstIndexOf pat rest).map (· + 1)

/-- JSON insignificant whitespace. -/
def isWs (c : Char) : Bool := c == ' ' || c == '\t' || c == '\n' || c == '\r'

/-- Skip leading JSON whitespace. -/
def skipWs : List Char → List Char
  | [] => []
  | c :: rest => if isWs c then skipWs rest else c :: rest

/-- Value of one hex digit. -/
def hexVal (c : Char) : Option Nat :=
  if '0' ≤ c ∧ c ≤ '9' then some (c.toNat - 48)
  else if 'a' ≤ c ∧ c ≤ 'f' then some (c.toNat - 87)
  else if 'A' ≤ c ∧ c ≤ 'F' then some (c.toNat - 55)
  else none

/-- Translation of a single-character JSON string escape. -/
def escChar (c : Char) : Option Char :=
  if c = '"' then some '"'
  else if c = '\\' then some '\\'
  else if c = '/' then some '/'
  else if c = 'b' then some (Char.ofNat 8)
  else if c = 'f' then some (Char.ofNat 12)
  else if c = 'n' then some '\n'
  else if c = 'r' then some (Char.ofNat 13)
  else if c = 't' then some '\t'
  else none

/-- Body of a JSON string after the opening quote: content up to the closing
quote plus the remaining input.  Control bytes are rejected; `\uXXXX`
escapes become the code point (surrogate pairing is not modelled — no
claim exercises it). -/
def parseStringBody : List Char → Option (List Char × List Char)
  | [] => none
  | '"' :: rest => some ([], rest)
  | '\\' :: esc =>
    match esc with
    | 'u' :: h1 :: h2 :: h3 :: h4 :: rest =>
      (hexVal h1).bind fun v1 => (hexVal h2).bind fun v2 =>
      (hexVal h3).bind fun v3 => (hexVal h4).bind fun v4 =>
      (parseStringBody rest).map fun (s, r) =>
        (Char.ofNat (((v1 * 16 + v2) * 16 + v3) * 16 + v4) :: s, r)
    | c :: rest =>
      (escChar c).bind fun ec =>
      (parseStringBody rest).map fun (s, r) => (ec :: s, r)
    | [] => none
  | c :: rest =>
    if c.toNat < 32 then none
    else (parseStringBody rest).map fun (s, r) => (c :: s, r)

/-- Take the maximal run of leading decimal digits. -/
def takeDigits : List Char → List Char × List Char
  | [] => ([], [])
  | c :: rest =>
    if c.isDigit then
      let (ds, r) := takeDigits rest
      (c :: ds, r)
    else ([], c :: rest)

/-- Optional exponent part of a JSON number literal. -/
def exponentPart (acc : List Char) (s : List Char) : Option (List Char × List Char) :=
  match s with
  | e :: rest =>
    if e = 'e' ∨ e = 'E' then
      match rest with
      | '+' :: r1 =>
        match takeDigits r1 with
        | ([], _) => none
        | (ds, r) => some (acc ++ e :: '+' :: ds, r)
      | '-' :: r1 =>
        match takeDigits r1 with
        | ([], _) => none
        | (ds, r) => some (acc ++ e :: '-' :: ds, r)
      | _ =>
        match takeDigits rest with
        | ([], _) => none
        | (ds, r) => some (acc ++ e :: ds, r)
    else some (acc, s)
  | [] => some (acc, [])

/-- Optional fraction part of a JSON number literal, then the exponent. -/
def fractionPart (acc : List Char) (s : List Char) : Option (List Char × List Char) :=
  match s with
  | '.' :: rest =>
    match takeDigits rest with
    | ([], _) => none
    | (ds, r) => exponentPart (acc ++ '.' :: ds) r
  | _ => exponentPart acc s

/-- A JSON number literal (RFC 8259 grammar, as enforced by encoding/json:
optional minus, integer part without leading zeros, optional fraction,
optional exponent); returns the literal and the remaining input. -/
def parseNumLit (s : List Char) : Option (List Char × List Char) :=
  match s with
  | '-' :: s1 =>
    (match s1 with
     | '0' :: rest => fractionPart ['-', '0'] rest
     | c :: rest =>
       if c.isDigit then
         let (ds, r) := takeDigits rest
         fractionPart ('-' :: c :: ds) r
       else none
     | [] => none)
  | '0' :: rest => fractionPart ['0'] rest
  | c :: rest =>
    if c.isDigit then
      let (ds, r) := takeDigits rest
      fractionPart (c :: ds) r
    else none
  | [] => none

/-- Decimal digits as a natural number. -/
def evalDigits (ds : List Char) : Nat :=
  ds.foldl (fun n c => n * 10 + (c.toNat - 48)) 0

/-- Exact rational value of a JSON number literal (the model uses exact
rationals where Go rounds to the nearest float64). -/
def evalNumLit (s : List Char) : ℚ :=
  let (neg, s1) : Bool × List Char :=
    match s with
    | '-' :: r => (true, r)
    | _ => (false, s)
  let (ip, r1) := takeDigits s1
  let (fp, r2) : List Char × List Char :=
    match r1 with
    | '.' :: r => takeDigits r
    | _ => ([], r1)
  let (esign, ed) : Int × List Char :=
    match r2 with
    | _ :: '+' :: r => (1, (takeDigits r).1)
    | _ :: '-' :: r => (-1, (takeDigits r).1)
    | _ :: r => (1, (takeDigits r).1)
    | [] => (1, [])
  let m : Int := (evalDigits (ip ++ fp) : Int)
  let m : Int := if neg then -m else m
  let e : Int := esign * (evalDigits ed : Int) - (fp.length : Int)
  if 0 ≤ e then ((m * 10 ^ e.toNat : Int) : ℚ) else mkRat m (10 ^ (-e).toNat)

/-- The numeric value of a `json:",string"` float64 field: the quoted
string's contents must form a complete JSON number. -/
def parseQnum (s : List Char) : Option ℚ :=
  match parseNumLit s with
  | some (_, []) => some (evalNumLit s)
  | _ => none

/-- The numeric value of a `json:",string"` int field: a complete integral
JSON number within the 64-bit range (`strconv.ParseInt`). -/
def parseJsonInt (s : List Char) : Option Int :=
  match parseNumLit s with
  | some (lit, []) =>
    if lit.any (fun c => c == '.' || c == 'e' || c == 'E') then none
    else
      match lit with
      | '-' :: ds => if evalDigits ds ≤ 2 ^ 63 then some (-(evalDigits ds : Int)) else none
      | ds => if evalDigits ds ≤ 2 ^ 63 - 1 then some (evalDigits ds : Int) else none
  | _ => none

/-- A parsed JSON document tree (number literals kept as raw text; only
string-valued leaves are read by the fixed extraction path). -/
inductive Json where
  | null
  | bool (b : Bool)
  | num (lit : List Char)
  | str (s : List Char)
  | arr (elems : List Json)
  | obj (members : List (List Char × Json))

mutual

/-- One JSON value, by recursive descent.  The fuel bounds the recursion as
Go's decoder bounds its nesting; `jsonDecode` passes a budget far larger
than any input the page can produce. -/
def parseValue : Nat → List Char → Option (Json × List Char)
  | 0, _ => none
  | fuel + 1, s =>
    match skipWs s with
    | [] => none
    | '{' :: rest => parseObjectBody fuel rest
    | '[' :: rest => parseArrayBody fuel rest
    | '"' :: rest => (parseStringBody rest).map fun (str, r) => (.str str, r)
    | 't' :: rest =>
      if startsWith "rue".data rest then some (.bool true, rest.drop 3) else none
    | 'f' :: rest =>
      if startsWith "alse".data rest then some (.bool false, rest.drop 4) else none
    | 'n' :: rest =>
      if startsWith "ull".data rest then some (.null, rest.drop 3) else none
    | c :: rest =>
      if c = '-' ∨ c.isDigit then
        (parseNumLit (c :: rest)).map fun (lit, r) => (.num lit, r)
      else none

/-- Object body after the opening brace: empty object or the member list. -/
def parseObjectBody : Nat → List Char → Option (Json × List Char)
  | 0, _ => none
  | fuel + 1, s =>
    match skipWs s with
    | '}' :: rest => some (.obj [], rest)
    | s1 => parseMembers fuel s1 []

/-- Object members: a quoted key, a colon, a value, then a comma (more
members) or the closing brace. -/
def parseMembers : Nat → List Char → List (List Char × Json) →
    Option (Json × List Char)
  | 0, _, _ => none
  | fuel + 1, s, acc =>
    match s with
    | '"' :: rest =>
      match parseStringBody rest with
      | none => none
      | some (key, r1) =>
        match skipWs r1 with
        | ':' :: r2 =>
          match parseValue fuel r2 with
          | none => none
          | some (v, r3) =>
            match skipWs r3 with
            | ',' :: r4 => parseMembers fuel (skipWs r4) (acc ++ [(key, v)])
            | '}' :: r4 => some (.obj (acc ++ [(key, v)]), r4)
            | _ => none
        | _ => none
    | _ => none

/-- Array body after the opening bracket. -/
def parseArrayBody : Nat → List Char → Option (Json × List Char)
  | 0, _ => none
  | fuel + 1, s =>
    match skipWs s with
    | ']' :: rest => some (.arr [], rest)
    | s1 => parseElems fuel s1 []

/-- Array elements separated by commas. -/
def parseElems : Nat → List Char → List Json → Option (Json × List Char)
  | 0, _, _ => none
  | fuel + 1, s, acc =>
    match parseValue fuel s with
    | none => none
    | some (v, r1) =>
      match skipWs r1 with
      | ',' :: r2 => parseElems fuel r2 (acc ++ [v])
      | ']' :: r2 => some (.arr (acc ++ [v]), r2)
      | _ => none

end

/-- ASCII lower-casing, for encoding/json's case-insensitive key match. -/
def asciiLower (c : Char) : Char :=
  if 'A' ≤ c ∧ c ≤ 'Z' then Char.ofNat (c.toNat + 32) else c

/-- Case-insensitive key comparison (encoding/json field matching). -/
def foldEq (a b : List Char) : Bool :=
  a.map asciiLower == b.map asciiLower

/-- The zero value of the statistics struct. -/
def zeroStats : GameJSON := ⟨0, 0, 0, 0⟩

/-- Decoding one member of the stats object into the `gameJSON` struct:
the four tagged `,string` fields require a string holding a number;
unknown keys are skipped. -/
def setStatsField (g : GameJSON) (key : List Char) (v : Json) : Option GameJSON :=
  if foldEq key "average".data then
    match v with
    | .str s => (parseQnum s).map fun q => { g with Score := q }
    | _ => none
  else if foldEq key "avgweight".data then
    match v with
    | .str s => (parseQnum s).map fun q => { g with Weight := q }
    | _ => none
  else if foldEq key "baverage".data then
    match v with
    | .str s => (parseQnum s).map fun q => { g with BScore := q }
    | _ => none
  else if foldEq key "usersrated".data then
    match v with
    | .str s => (parseJsonInt s).map fun n => { g with Ratings := n }
    | _ => none
  else some g

/-- Unmarshalling a JSON value into the `gameJSON` struct (null leaves the
current value; a non-object is a type error). -/
def decodeStatsObj (g : GameJSON) : Json → Option GameJSON
  | .null => some g
  | .obj ms => ms.foldl (fun acc kv => acc.bind fun g' => setStatsField g' kv.1 kv.2) (some g)
  | _ => none

/-- Unmarshalling into the anonymous `struct{ Stats gameJSON }`: only a key
folding to `stats` is read, all other members are skipped. -/
def decodeItemObj (g : GameJSON) : Json → Option GameJSON
  | .null => some g
  | .obj ms =>
    ms.foldl
      (fun acc kv => acc.bind fun g' =>
        if foldEq kv.1 "stats".data then decodeStatsObj g' kv.2 else some g')
      (some g)
  | _ => none

/-- Unmarshalling into `struct{ Item struct{ Stats gameJSON } }`: only a key
folding to `item` is read. -/
def decodeDoc : Json → Option GameJSON
  | .null => some zeroStats
  | .obj ms =>
    ms.foldl
      (fun acc kv => acc.bind fun g' =>
        if foldEq kv.1 "item".data then decodeItemObj g' kv.2 else some g')
      (some zeroStats)
  | _ => none

/-- The literal marker scanned for in the HTML page. -/
def needle : List Char := "GEEK.geekitemPreload".data

/-- Recursion budget for the decoder, standing in for Go's bounded decoder
recursion; it exceeds the token count of any buffer the claims concern, and
the scan of a well-formed value consumes fuel only for tokens it actually
reads. -/
def decodeFuel : Nat := 2 ^ 60

/-- Transcription of `jsonDecode`: find the marker, find the first brace
after it, decode one JSON value from there (trailing bytes are never read),
and unmarshal the known `item.stats` sub-path. -/
def jsonDecode (htmlRaw : List Char) : Except String GameJSON :=
  match firstIndexOf needle htmlRaw with
  | none => .error "Could not find GEEK.geekitemPreload in htmlRaw"
  | some start =>
    let preload := htmlRaw.drop (start + needle.length)
    match preload.findIdx? (fun c => c == '{') with
    | none => .error "Could not find the first brace in preloaded data"
    | some brace =>
      match parseValue decodeFuel (preload.drop brace) with
      | none => .error "Failed to parse json"
      | some (v, _) =>
        match decodeDoc v with
        | none => .error "Failed to parse json"
        | some g => .ok g

/-- The reference embedded-statistics object of the spec's example (braces
written with hex escapes). -/
def statsObjRef : List Char :=
  "\x7b\"item\":\x7b\"stats\":\x7b\"average\":\"7.5\",\"avgweight\":\"2.3\",\"baverage\":\"7.1\",\"usersrated\":\"1000\"\x7d\x7d\x7d".data

lemma parsePolls_eq_scan (gx : GameXML) (t : Int) :
    parsePolls gx t = scanRows t (selectedRows gx) false := by
  unfold parsePolls selectedRows
  cases selectPlayerPoll gx.Polls <;> rfl

lemma exists_three_votes (l : List Int) (h : 3 ≤ l.length) :
    ∃ a b c rest, l = a :: b :: c :: rest := by
  match l, h with
  | a :: b :: c :: rest, _ => exact ⟨a, b, c, rest, rfl⟩

lemma rowMatches_isSome {t : Int} {r : PollRow} (h : rowMatches t r = true) :
    ∃ k, labelVal r = some k := by
  unfold rowMatches at h
  cases hk : labelVal r with
  | none => rw [hk] at h; simp at h
  | some k => exact ⟨k, rfl⟩

lemma scanRows_first_match (t : Int) (r : PollRow)
    (hv : 3 ≤ r.Votes.length)
    (hfl : passesFloor r = true) (hm : rowMatches t r = true) :
    ∀ (pre post : List PollRow) (acc : Bool),
      (∀ x ∈ pre, 3 ≤ x.Votes.length ∧ (labelVal x).isSome = true ∧
        ¬(passesFloor x = true ∧ rowMatches t x = true)) →
      scanRows t (pre ++ r :: post) acc
        = .ok (acc || stickyBest (pre ++ [r])) (!(acc || stickyBest (pre ++ [r]))) := by
  intro pre
  induction pre with
  | nil =>
    intro post acc _
    obtain ⟨a, b, c, vs, hvr⟩ := exists_three_votes r.Votes hv
    obtain ⟨k, hk⟩ := rowMatches_isSome hm
    have hk' : goAtoi (trimSuffixPlus r.NumPlayers) = some k := hk
    have hfl' : ¬(a + b ≤ c) := by
      unfold passesFloor bestVotes recVotes nayVotes at hfl
      rw [hvr] at hfl
      simp at hfl
      omega
    have hsticky : stickyBest ([] ++ [r]) = decide (b < a) := by
      unfold stickyBest goodBest recVotes bestVotes
      simp [hfl, hvr]
    have hval : (if b < a then true else acc) = (acc || decide (b < a)) := by
      by_cases hba : b < a <;> simp [hba]
    rw [hsticky]
    simp only [List.nil_append]
    unfold scanRows
    rw [hvr]
    simp only [hk']
    rw [if_neg hfl']
    have hm' : ((hasSuffixPlus r.NumPlayers && decide (t ≤ k * 2)) || decide (k = t)) = true := by
      unfold rowMatches at hm
      rw [hk] at hm
      simpa using hm
    by_cases hc1 : hasSuffixPlus r.NumPlayers = true ∧ t ≤ k * 2
    · rw [if_pos hc1, hval]
    · rw [if_neg hc1]
      have hc2 : k = t := by
        rcases Bool.or_eq_true_iff.mp hm' with h1 | h2
        · exact absurd ⟨(Bool.and_eq_true_iff.mp h1).1,
            of_decide_eq_true (Bool.and_eq_true_iff.mp h1).2⟩ hc1
        · exact of_decide_eq_true h2
      rw [if_pos hc2, hval]
  | cons x pre ih =>
    intro post acc hpre
    obtain ⟨hxv, hxs, hxnm⟩ := hpre x (List.mem_cons_self x pre)
    have hpre' : ∀ y ∈ pre, 3 ≤ y.Votes.length ∧ (labelVal y).isSome = true ∧
        ¬(passesFloor y = true ∧ rowMatches t y = true) :=
      fun y hy => hpre y (List.mem_cons_of_mem x hy)
    obtain ⟨a, b, c, vs, hvx⟩ := exists_three_votes x.Votes hxv
    obtain ⟨kx, hkx⟩ := Option.isSome_iff_exists.mp hxs
    have hkx' : goAtoi (trimSuffixPlus x.NumPlayers) = some kx := hkx
    have hgb : goodBest x = (passesFloor x && decide (b < a)) := by
      unfold goodBest recVotes bestVotes
      rw [hvx]
      rfl
    simp only [List.cons_append]
    unfold scanRows
    rw [hvx]
    simp only [hkx']
    by_cases hflx : a + b ≤ c
    · have hpf : passesFloor x = false := by
        unfold passesFloor bestVotes recVotes nayVotes
        rw [hvx]
        simp
        omega
      rw [if_pos hflx]
      rw [ih post acc hpre']
      have hst : stickyBest (x :: (pre ++ [r])) = stickyBest (pre ++ [r]) := by
        unfold stickyBest
        simp [hgb, hpf]
      rw [hst]
    · have hpf : passesFloor x = true := by
        unfold passesFloor bestVotes recVotes nayVotes
        rw [hvx]
        simp
        omega
      have hmx : rowMatches t x = false := by
        cases hmxc : rowMatches t x with
        | false => rfl
        | true => exact absurd ⟨hpf, hmxc⟩ hxnm
      have hmx' : ((hasSuffixPlus x.NumPlayers && decide (t ≤ kx * 2)) || decide (kx = t)) = false := by
        unfold rowMatches at hmx
        rw [hkx] at hmx
        simpa using hmx
      have hnc1 : ¬(hasSuffixPlus x.NumPlayers = true ∧ t ≤ kx * 2) := by
        rintro ⟨h1, h2⟩
        simp [h1, h2] at hmx'
      have hnc2 : kx ≠ t := by
        intro h
        simp [h] at hmx'
      rw [if_neg hflx]
      rw [if_neg hnc1, if_neg hnc2]
      rw [ih post (if b < a then true else acc) hpre']
      have hacc : (if b < a then true else acc) = (acc || goodBest x) := by
        rw [hgb, hpf]
        by_cases hba : b < a <;> simp [hba]
      rw [hacc]
      have hst : stickyBest (x :: (pre ++ [r])) = (goodBest x || stickyBest (pre ++ [r])) := by
        unfold stickyBest
        simp
      rw [hst, Bool.or_assoc]

lemma scanRows_ok_of_no_match (t : Int) :
    ∀ (rows : List PollRow) (acc : Bool),
      (∀ r ∈ rows, 3 ≤ r.Votes.length ∧ (labelVal r).isSome = true ∧
        ¬(passesFloor r = true ∧ rowMatches t r = true)) →
      scanRows t rows acc = .ok false false := by
  intro rows
  induction rows with
  | nil => intro acc _; rfl
  | cons x rest ih =>
    intro acc hall
    obtain ⟨hxv, hxs, hxnm⟩ := hall x (List.mem_cons_self x rest)
    have hrest : ∀ r ∈ rest, 3 ≤ r.Votes.length ∧ (labelVal r).isSome = true ∧
        ¬(passesFloor r = true ∧ rowMatches t r = true) :=
      fun r hr => hall r (List.mem_cons_of_mem x hr)
    obtain ⟨a, b, c, vs, hvx⟩ := exists_three_votes x.Votes hxv
    obtain ⟨kx, hkx⟩ := Option.isSome_iff_exists.mp hxs
    have hkx' : goAtoi (trimSuffixPlus x.NumPlayers) = some kx := hkx
    unfold scanRows
    rw [hvx]
    simp only [hkx']
    by_cases hflx : a + b ≤ c
    · rw [if_pos hflx]; exact ih acc hrest
    · have hpf : passesFloor x = true := by
        unfold passesFloor bestVotes recVotes nayVotes
        rw [hvx]
        simp
        omega
      have hmx : rowMatches t x = false := by
        cases hmxc : rowMatches t x with
        | false => rfl
        | true => exact absurd ⟨hpf, hmxc⟩ hxnm
      have hmx' : ((hasSuffixPlus x.NumPlayers && decide (t ≤ kx * 2)) || decide (kx = t)) = false := by
        unfold rowMatches at hmx
        rw [hkx] at hmx
        simpa using hmx
      have hnc1 : ¬(hasSuffixPlus x.NumPlayers = true ∧ t ≤ kx * 2) := by
        rintro ⟨h1, h2⟩
        simp [h1, h2] at hmx'
      have hnc2 : kx ≠ t := by
        intro h
        simp [h] at hmx'
      rw [if_neg hflx, if_neg hnc1, if_neg hnc2]
      exact ih _ hrest

lemma scanRows_ne_panic (t : Int) :
    ∀ (rows : List PollRow) (acc : Bool),
      (∀ r ∈ rows, 3 ≤ r.Votes.length) →
      scanRows t rows acc ≠ .panicked := by
  intro rows
  induction rows with
  | nil => intro acc _ h; exact PollsOutcome.noConfusion h
  | cons x rest ih =>
    intro acc hall
    obtain ⟨a, b, c, vs, hvx⟩ :=
      exists_three_votes x.Votes (hall x (List.mem_cons_self x rest))
    have hrest : ∀ r ∈ rest, 3 ≤ r.Votes.length :=
      fun r hr => hall r (List.mem_cons_of_mem x hr)
    unfold scanRows
    rw [hvx]
    cases hkx : goAtoi (trimSuffixPlus x.NumPlayers) with
    | none => simp
    | some kx =>
      simp only
      by_cases hflx : a + b ≤ c
      · rw [if_pos hflx]; exact ih acc hrest
      · rw [if_neg hflx]
        by_cases hc1 : hasSuffixPlus x.NumPlayers = true ∧ t ≤ kx * 2
        · rw [if_pos hc1]; simp
        · rw [if_neg hc1]
          by_cases hc2 : kx = t
          · rw [if_pos hc2]; simp
          · rw [if_neg hc2]; exact ih _ hrest

lemma scanRows_err_iff (t : Int) :
    ∀ (rows : List PollRow) (acc : Bool),
      (∀ r ∈ rows, 3 ≤ r.Votes.length) →
      (scanRows t rows acc = .parseErr ↔
        ∃ pre r post, rows = pre ++ r :: post ∧ labelVal r = none ∧
          ∀ x ∈ pre, ¬(passesFloor x = true ∧ rowMatches t x = true)) := by
  intro rows
  induction rows with
  | nil =>
    intro acc _
    constructor
    · intro h; exact absurd h (by intro h'; exact PollsOutcome.noConfusion h')
    · rintro ⟨pre, r, post, habs, -, -⟩
      exact absurd habs (by simp)
  | cons x rest ih =>
    intro acc hall
    obtain ⟨a, b, c, vs, hvx⟩ :=
      exists_three_votes x.Votes (hall x (List.mem_cons_self x rest))
    have hrest : ∀ r ∈ rest, 3 ≤ r.Votes.length :=
      fun r hr => hall r (List.mem_cons_of_mem x hr)
    unfold scanRows
    rw [hvx]
    cases hkx : goAtoi (trimSuffixPlus x.NumPlayers) with
    | none =>
      simp only
      constructor
      · intro _
        exact ⟨[], x, rest, rfl, hkx, by simp⟩
      · intro _; trivial
    | some kx =>
      have hkxl : labelVal x = some kx := hkx
      simp only
      by_cases hflx : a + b ≤ c
      · have hpf : passesFloor x = false := by
          unfold passesFloor bestVotes recVotes nayVotes
          rw [hvx]
          simp
          omega
        rw [if_pos hflx, ih acc hrest]
        constructor
        · rintro ⟨pre, r, post, hsplit, hbad, hpre⟩
          exact ⟨x :: pre, r, post, by rw [hsplit]; rfl, hbad, by
            intro y hy
            rcases List.mem_cons.mp hy with rfl | hy'
            · rintro ⟨hp, -⟩; rw [hpf] at hp; exact Bool.noConfusion hp
            · exact hpre y hy'⟩
        · rintro ⟨pre, r, post, hsplit, hbad, hpre⟩
          cases pre with
          | nil =>
            simp at hsplit
            obtain ⟨rfl, rfl⟩ := hsplit
            rw [hkxl] at hbad
            exact Option.noConfusion hbad
          | cons p pre' =>
            simp at hsplit
            obtain ⟨rfl, hsplit'⟩ := hsplit
            exact ⟨pre', r, post, hsplit', hbad,
              fun y hy => hpre y (List.mem_cons_of_mem _ hy)⟩
      · have hpf : passesFloor x = true := by
          unfold passesFloor bestVotes recVotes nayVotes
          rw [hvx]
          simp
          omega
        rw [if_neg hflx]
        by_cases hret : (hasSuffixPlus x.NumPlayers = true ∧ t ≤ kx * 2) ∨ kx = t
        · have hmx : rowMatches t x = true := by
            unfold rowMatches
            rw [hkxl]
            rcases hret with ⟨h1, h2⟩ | h2
            · simp [h1, h2]
            · simp [h2]
          have hscan : (if hasSuffixPlus x.NumPlayers = true ∧ t ≤ kx * 2 then
              PollsOutcome.ok (if b < a then true else acc) (!(if b < a then true else acc))
            else if kx = t then
              PollsOutcome.ok (if b < a then true else acc) (!(if b < a then true else acc))
            else scanRows t rest (if b < a then true else acc)) ≠ .parseErr := by
            rcases hret with h1 | h2
            · rw [if_pos h1]; simp
            · by_cases hc1 : hasSuffixPlus x.NumPlayers = true ∧ t ≤ kx * 2
              · rw [if_pos hc1]; simp
              · rw [if_neg hc1, if_pos h2]; simp
          constructor
          · intro h; exact absurd h hscan
          · rintro ⟨pre, r, post, hsplit, hbad, hpre⟩
            cases pre with
            | nil =>
              simp at hsplit
              obtain ⟨rfl, rfl⟩ := hsplit
              rw [hkxl] at hbad
              exact Option.noConfusion hbad
            | cons p pre' =>
              simp at hsplit
              obtain ⟨rfl, hsplit'⟩ := hsplit
              exact absurd ⟨hpf, hmx⟩ (hpre x (List.mem_cons_self x pre'))
        · have hnc1 : ¬(hasSuffixPlus x.NumPlayers = true ∧ t ≤ kx * 2) :=
            fun h => hret (Or.inl h)
          have hnc2 : kx ≠ t := fun h => hret (Or.inr h)
          have hmx : rowMatches t x = false := by
            unfold rowMatches
            rw [hkxl]
            simp only [Bool.or_eq_false_iff, Bool.and_eq_false_iff, decide_eq_false_iff_not]
            constructor
            · by_cases h1 : hasSuffixPlus x.NumPlayers = true
              · right; intro h2; exact hret (Or.inl ⟨h1, h2⟩)
              · left; simpa using h1
            · exact hnc2
          rw [if_neg hnc1, if_neg hnc2, ih _ hrest]
          constructor
          · rintro ⟨pre, r, post, hsplit, hbad, hpre⟩
            exact ⟨x :: pre, r, post, by rw [hsplit]; rfl, hbad, by
              intro y hy
              rcases List.mem_cons.mp hy with rfl | hy'
              · rintro ⟨-, hm2⟩; rw [hmx] at hm2; exact Bool.noConfusion hm2
              · exact hpre y hy'⟩
          · rintro ⟨pre, r, post, hsplit, hbad, hpre⟩
            cases pre with
            | nil =>
              simp at hsplit
              obtain ⟨rfl, rfl⟩ := hsplit
              rw [hkxl] at hbad
              exact Option.noConfusion hbad
            | cons p pre' =>
              simp at hsplit
              obtain ⟨rfl, hsplit'⟩ := hsplit
              exact ⟨pre', r, post, hsplit', hbad,
                fun y hy => hpre y (List.mem_cons_of_mem _ hy)⟩

lemma checkGames_error (all : List (Option Game)) :
    ∀ l, (∀ g ∈ l, g = (none : Option Game)) →
      checkGames all l = .error "no valid games found" := by
  intro l
  induction l with
  | nil => intro _; rfl
  | cons g rest ih =>
    intro h
    have hg : g = none := h g (List.mem_cons_self g rest)
    subst hg
    exact ih fun g hg => h g (List.mem_cons_of_mem _ hg)

lemma checkGames_ok (all : List (Option Game)) :
    ∀ l, (∃ g ∈ l, (g : Option Game).isSome = true) →
      checkGames all l = .ok all := by
  intro l
  induction l with
  | nil => rintro ⟨g, hg, -⟩; exact absurd hg (List.not_mem_nil g)
  | cons g rest ih =>
    rintro ⟨g', hg', hs⟩
    cases g with
    | some v => rfl
    | none =>
      rcases List.mem_cons.mp hg' with rfl | hm
      · exact absurd hs (by simp)
      · exact ih ⟨g', hm, hs⟩

/-- C3: `fetchCollection` fails with the aggregate error exactly when no item
was enriched: all failures give the `no valid games found` error, one success
gives the (hole-preserving) slice with no error. -/
theorem fetchCollection_error_iff_all_fail
    (fetchGame : List Char → Option Game) (items : List (List Char)) :
    ((∀ i ∈ items, fetchGame i = none) →
      enrichAll fetchGame items = .error "no valid games found")
    ∧ ((∃ i ∈ items, (fetchGame i).isSome = true) →
      enrichAll fetchGame items = .ok (items.map fetchGame)) := by
  constructor
  · intro h
    exact checkGames_error _ _ (by
      intro g hg
      obtain ⟨i, hi, rfl⟩ := List.mem_map.mp hg
      exact h i hi)
  · rintro ⟨i, hi, hs⟩
    exact checkGames_ok _ _ ⟨fetchGame i, List.mem_map_of_mem _ hi, hs⟩

theorem fetchCollection_error_iff_all_fail_witness :
    enrichAll enrichNone ["a".data, "b".data, "c".data] = .error "no valid games found"
    ∧ enrichAll enrichSecond ["a".data, "b".data]
        = .ok (["a".data, "b".data].map enrichSecond) :=
  ⟨(fetchCollection_error_iff_all_fail enrichNone _).1 (by decide),
   (fetchCollection_error_iff_all_fail enrichSecond _).2 ⟨"b".data, by decide, by decide⟩⟩

/-- C10: an empty decoded collection yields the aggregate
`no valid games found` error even though no enrichment was attempted. -/
theorem fetchCollection_empty_feed_error (fetchGame : List Char → Option Game) :
    enrichAll fetchGame [] = .error "no valid games found" := rfl

/-- C1 (amended): with at least one success, `fetchCollection` returns, with
no error, the full pre-sized slice: same length as the input, slot `j`
holding exactly the enrichment outcome of identifier `j` (failed slots stay
as `none` placeholders; they are not omitted). -/
theorem fetchCollection_partial_success_keeps_holes
    (fetchGame : List Char → Option Game) (items : List (List Char))
    (h : ∃ i ∈ items, (fetchGame i).isSome = true) :
    enrichAll fetchGame items = .ok (items.map fetchGame)
    ∧ (items.map fetchGame).length = items.length
    ∧ ∀ j : Nat, (items.map fetchGame)[j]? = (items[j]?).map fetchGame := by
  refine ⟨?_, List.length_map _ _, fun j => List.getElem?_map _ _ _⟩
  unfold enrichAll
  exact checkGames_ok _ _ (by
    obtain ⟨i, hi, hs⟩ := h
    exact ⟨fetchGame i, List.mem_map_of_mem _ hi, hs⟩)

theorem fetchCollection_partial_success_keeps_holes_witness :
    enrichAll enrichSecond ["a".data, "b".data, "c".data]
      = .ok (["a".data, "b".data, "c".data].map enrichSecond)
    ∧ (["a".data, "b".data, "c".data].map enrichSecond).length
        = (["a".data, "b".data, "c".data] : List (List Char)).length
    ∧ ∀ j : Nat, (["a".data, "b".data, "c".data].map enrichSecond)[j]?
        = ((["a".data, "b".data, "c".data] : List (List Char))[j]?).map enrichSecond :=
  fetchCollection_partial_success_keeps_holes enrichSecond _ ⟨"b".data, by decide, by decide⟩

/-- C1 counterexample: for three identifiers of which exactly two fail, the
returned list is the full three-slot slice with `none` placeholders, not a
one-element list. -/
theorem fetchCollection_holes_not_omitted_cex :
    enrichAll enrichSecond ["a".data, "b".data, "c".data]
      = .ok [none, some gSample, none]
    ∧ ¬∃ gs, enrichAll enrichSecond ["a".data, "b".data, "c".data] = .ok gs
        ∧ gs.length = 1 := by
  have h1 : enrichAll enrichSecond ["a".data, "b".data, "c".data]
      = .ok [none, some gSample, none] := by decide
  refine ⟨h1, ?_⟩
  rintro ⟨gs, hgs, hlen⟩
  rw [h1] at hgs
  cases hgs
  simp at hlen

/-- C2 counterexample: at target 3 the first matching row is the `"3"` row
with `best=0 < recommended=5` (the `"2"` row passes the floor but does not
match), so the claim demands `isBest = false`; the code returns
`isBest = true` because the earlier row set the sticky flag. -/
theorem parsePolls_isBest_not_rowlocal_cex :
    parsePolls gxSticky 3 = .ok true false
    ∧ passesFloor ⟨"3".data, [0, 5, 0]⟩ = true
    ∧ rowMatches 3 ⟨"3".data, [0, 5, 0]⟩ = true
    ∧ ¬(recVotes ⟨"3".data, [0, 5, 0]⟩ < bestVotes ⟨"3".data, [0, 5, 0]⟩)
    ∧ passesFloor ⟨"2".data, [5, 0, 0]⟩ = true
    ∧ rowMatches 3 ⟨"2".data, [5, 0, 0]⟩ = false := by decide

/-- C2 (amended): when row `r` is the first row of the selected poll that
passes the vote floor and matches the target, the returned `isBest` is the
sticky flag accumulated over all floor-passing scanned rows up to and
including `r` — any earlier floor-passing, non-matching row with
`best > recommended` forces `isBest = true`; it is not computed from `r`
alone.  Ties on every scanned row yield `isBest = false`. -/
theorem parsePolls_isBest_sticky (gx : GameXML) (t : Int)
    (pre post : List PollRow) (r : PollRow)
    (hrows : selectedRows gx = pre ++ r :: post)
    (hpre : ∀ x ∈ pre, 3 ≤ x.Votes.length ∧ (labelVal x).isSome = true ∧
      ¬(passesFloor x = true ∧ rowMatches t x = true))
    (hv : 3 ≤ r.Votes.length)
    (hfl : passesFloor r = true) (hm : rowMatches t r = true) :
    parsePolls gx t
      = .ok (stickyBest (pre ++ [r])) (!stickyBest (pre ++ [r])) := by
  rw [parsePolls_eq_scan, hrows,
    scanRows_first_match t r hv hfl hm pre post false hpre]
  simp

theorem parsePolls_isBest_sticky_witness :
    parsePolls gxSticky 3
      = .ok (stickyBest [⟨"2".data, [5, 0, 0]⟩, ⟨"3".data, [0, 5, 0]⟩])
          (!stickyBest [⟨"2".data, [5, 0, 0]⟩, ⟨"3".data, [0, 5, 0]⟩]) :=
  parsePolls_isBest_sticky gxSticky 3 [⟨"2".data, [5, 0, 0]⟩] []
    ⟨"3".data, [0, 5, 0]⟩ (by decide) (by decide) (by decide) (by decide) (by decide)

/-- C8: whenever `parsePolls` returns because a row matched (the first
floor-passing matching row `r` of the selected poll), the two returned
booleans are `(b, !b)`: never both true and never both false. -/
theorem parsePolls_match_complementary (gx : GameXML) (t : Int)
    (pre post : List PollRow) (r : PollRow)
    (hrows : selectedRows gx = pre ++ r :: post)
    (hpre : ∀ x ∈ pre, 3 ≤ x.Votes.length ∧ (labelVal x).isSome = true ∧
      ¬(passesFloor x = true ∧ rowMatches t x = true))
    (hv : 3 ≤ r.Votes.length)
    (hfl : passesFloor r = true) (hm : rowMatches t r = true) :
    ∃ b, parsePolls gx t = .ok b (!b) :=
  ⟨stickyBest (pre ++ [r]), by
    rw [parsePolls_eq_scan, hrows,
      scanRows_first_match t r hv hfl hm pre post false hpre]
    simp⟩

theorem parsePolls_match_complementary_witness :
    ∃ b, parsePolls gxTie 5 = .ok b (!b) :=
  parsePolls_match_complementary gxTie 5 [] [] ⟨"5".data, [5, 5, 0]⟩
    (by decide) (by decide) (by decide) (by decide) (by decide)

/-- C4: a floor-passing row with the or-more marker and parsed count `k`
matches target `t` (for a genuine player count, `1 ≤ t`) exactly when
`k*2 ≥ t`; a row without the marker matches exactly when `k = t`; and the
classification `parsePolls` returns is the one computed by the scan of the
rows up to and including the first floor-passing matching row. -/
theorem parsePolls_row_matching_policy :
    (∀ (t k : Int) (r : PollRow), 1 ≤ t → labelVal r = some k →
      hasSuffixPlus r.NumPlayers = true → (rowMatches t r = true ↔ t ≤ k * 2))
    ∧ (∀ (t k : Int) (r : PollRow), labelVal r = some k →
      hasSuffixPlus r.NumPlayers = false → (rowMatches t r = true ↔ k = t))
    ∧ (∀ (gx : GameXML) (t : Int) (pre post : List PollRow) (r : PollRow),
      selectedRows gx = pre ++ r :: post →
      (∀ x ∈ pre, 3 ≤ x.Votes.length ∧ (labelVal x).isSome = true ∧
        ¬(passesFloor x = true ∧ rowMatches t x = true)) →
      3 ≤ r.Votes.length → passesFloor r = true → rowMatches t r = true →
      parsePolls gx t = scanRows t (pre ++ [r]) false) := by
  refine ⟨?_, ?_, ?_⟩
  · intro t k r ht hk hplus
    unfold rowMatches
    rw [hk, hplus]
    simp only [Bool.true_and, Bool.or_eq_true, decide_eq_true_eq]
    omega
  · intro t k r hk hplus
    unfold rowMatches
    rw [hk, hplus]
    simp
  · intro gx t pre post r hrows hpre hv hfl hm
    rw [parsePolls_eq_scan, hrows,
      scanRows_first_match t r hv hfl hm pre post false hpre,
      scanRows_first_match t r hv hfl hm pre [] false hpre]

theorem parsePolls_row_matching_policy_witness :
    (rowMatches 12 row6plus = true ↔ (12 : Int) ≤ 6 * 2)
    ∧ (rowMatches 13 row6plus = true ↔ (13 : Int) ≤ 6 * 2)
    ∧ parsePolls gxTie 5 = scanRows 5 ([] ++ [⟨"5".data, [5, 5, 0]⟩]) false :=
  ⟨parsePolls_row_matching_policy.1 12 6 row6plus (by decide) (by decide) (by decide),
   parsePolls_row_matching_policy.1 13 6 row6plus (by decide) (by decide) (by decide),
   parsePolls_row_matching_policy.2.2 gxTie 5 [] [] ⟨"5".data, [5, 5, 0]⟩
     (by decide) (by decide) (by decide) (by decide) (by decide)⟩

/-- C6: a row whose best plus recommended votes do not exceed its
not-recommended votes is skipped entirely by the scan: deleting it from the
selected poll's row list changes nothing — it neither matches the target nor
influences the classification derived from later rows (the sticky flag is
updated only after the floor check). -/
theorem parsePolls_vote_floor_skip (t : Int) (r : PollRow)
    (h3 : 3 ≤ r.Votes.length)
    (hfloor : bestVotes r + recVotes r ≤ nayVotes r)
    (hlabel : (labelVal r).isSome = true) :
    ∀ (pre post : List PollRow) (acc : Bool),
      scanRows t (pre ++ r :: post) acc = scanRows t (pre ++ post) acc := by
  obtain ⟨a, b, c, vs, hvr⟩ := exists_three_votes r.Votes h3
  obtain ⟨k, hk⟩ := Option.isSome_iff_exists.mp hlabel
  have hk' : goAtoi (trimSuffixPlus r.NumPlayers) = some k := hk
  have hfl : a + b ≤ c := by
    unfold bestVotes recVotes nayVotes at hfloor
    rw [hvr] at hfloor
    simpa using hfloor
  intro pre
  induction pre with
  | nil =>
    intro post acc
    simp only [List.nil_append]
    simp only [scanRows]
    rw [hvr]
    simp only [hk']
    rw [if_pos hfl]
  | cons x pre ih =>
    intro post acc
    simp only [List.cons_append]
    simp only [scanRows]
    rcases hxv : x.Votes with _ | ⟨v1, _ | ⟨v2, _ | ⟨v3, vrest⟩⟩⟩
    · rfl
    · rfl
    · rfl
    · cases hkx : goAtoi (trimSuffixPlus x.NumPlayers) with
      | none => rfl
      | some kx =>
        by_cases hflx : v1 + v2 ≤ v3
        · simp only [if_pos hflx]
          exact ih post acc
        · simp only [if_neg hflx]
          by_cases hc1 : hasSuffixPlus x.NumPlayers = true ∧ t ≤ kx * 2
          · simp only [if_pos hc1]
          · simp only [if_neg hc1]
            by_cases hc2 : kx = t
            · simp only [if_pos hc2]
            · simp only [if_neg hc2]
              exact ih post _

theorem parsePolls_vote_floor_skip_witness :
    scanRows 3 ([] ++ rowFloor :: [⟨"3".data, [9, 0, 0]⟩]) false
      = scanRows 3 ([] ++ [⟨"3".data, [9, 0, 0]⟩]) false :=
  parsePolls_vote_floor_skip 3 rowFloor (by decide) (by decide) (by decide)
    [] [⟨"3".data, [9, 0, 0]⟩] false

/-- C7: (rows all carrying three vote entries) `parsePolls` returns an error
precisely when the scan reaches a row whose label (after stripping a
trailing `'+'`) is not a valid integer — i.e. some decomposition
`pre ++ r :: post` of the selected rows has `r` unparsable and no row of
`pre` returning first; absence of a `suggested_numplayers` poll yields
`(false, false)` with no error; and a poll in which no row ever matches also
yields `(false, false)` with no error. -/
theorem parsePolls_error_conditions (gx : GameXML) (t : Int) :
    ((∀ r ∈ selectedRows gx, 3 ≤ r.Votes.length) →
      (parsePolls gx t = .parseErr ↔
        ∃ pre r post, selectedRows gx = pre ++ r :: post ∧ labelVal r = none ∧
          ∀ x ∈ pre, ¬(passesFloor x = true ∧ rowMatches t x = true)))
    ∧ (selectPlayerPoll gx.Polls = none → parsePolls gx t = .ok false false)
    ∧ ((∀ r ∈ selectedRows gx, 3 ≤ r.Votes.length ∧ (labelVal r).isSome = true ∧
        ¬(passesFloor r = true ∧ rowMatches t r = true)) →
      parsePolls gx t = .ok false false) := by
  refine ⟨?_, ?_, ?_⟩
  · intro h
    rw [parsePolls_eq_scan]
    exact scanRows_err_iff t _ false h
  · intro h
    unfold parsePolls
    rw [h]
  · intro h
    rw [parsePolls_eq_scan]
    exact scanRows_ok_of_no_match t _ false h

theorem parsePolls_error_conditions_witness :
    parsePolls gxBadLabel 3 = .parseErr
    ∧ parsePolls gxNoPoll 3 = .ok false false :=
  ⟨((parsePolls_error_conditions gxBadLabel 3).1 (by decide)).mpr
      ⟨[], ⟨"x".data, [2, 1, 3]⟩, [], rfl, by decide, by simp⟩,
   (parsePolls_error_conditions gxNoPoll 3).2.1 (by decide)⟩

/-- C9: the scan indexes the first three vote entries of every scanned row
with no bounds check, so its behaviour is defined only under the
precondition that every row of the selected poll has at least three vote
entries: under it the out-of-bounds branch (a runtime panic in Go) is never
taken, while a reachable row with fewer entries panics. -/
theorem parsePolls_votes_indexing_safety :
    (∀ (gx : GameXML) (t : Int),
      (∀ r ∈ selectedRows gx, 3 ≤ r.Votes.length) →
      parsePolls gx t ≠ .panicked)
    ∧ parsePolls gxShortRow 3 = .panicked := by
  constructor
  · intro gx t h
    rw [parsePolls_eq_scan]
    exact scanRows_ne_panic t _ false h
  · decide

theorem parsePolls_votes_indexing_safety_witness :
    parsePolls gxSticky 3 ≠ .panicked :=
  parsePolls_votes_indexing_safety.1 gxSticky 3 (by decide)

/-- C5: for every buffer made of arbitrary bytes, the marker, arbitrary
brace-free bytes, the reference `item.stats` object, and arbitrary trailing
bytes (the two scan hypotheses say exactly that the marker occurs first at
the end of `pre` and the first brace after it opens the object),
`jsonDecode` succeeds with the four numeric values coerced from their
string forms, never reading the trailing bytes — no matching closing brace
is sought. -/
theorem jsonDecode_extracts_stats (pre mid trail : List Char)
    (hpre : firstIndexOf needle (pre ++ needle ++ mid ++ statsObjRef ++ trail)
      = some pre.length)
    (hmid : (mid ++ statsObjRef ++ trail).findIdx? (fun c => c == '{')
      = some mid.length) :
    jsonDecode (pre ++ needle ++ mid ++ statsObjRef ++ trail)
      = .ok ⟨mkRat 15 2, mkRat 23 10, mkRat 71 10, 1000⟩ := by
  have hdrop : (pre ++ needle ++ mid ++ statsObjRef ++ trail).drop
      (pre.length + needle.length) = mid ++ statsObjRef ++ trail := by
    have h1 : pre ++ needle ++ mid ++ statsObjRef ++ trail
        = (pre ++ needle) ++ (mid ++ statsObjRef ++ trail) := by
      simp [List.append_assoc]
    have h2 : pre.length + needle.length = (pre ++ needle).length := by simp
    rw [h1, h2, List.drop_left]
  have hdrop2 : (mid ++ statsObjRef ++ trail).drop mid.length
      = statsObjRef ++ trail := by
    have h1 : mid ++ statsObjRef ++ trail = mid ++ (statsObjRef ++ trail) := by
      simp [List.append_assoc]
    rw [h1, List.drop_left]
  unfold jsonDecode
  simp only [hpre, hdrop, hmid, hdrop2]
  rfl

theorem jsonDecode_extracts_stats_witness :
    jsonDecode ("<html>var x = ".data ++ needle ++ " = ".data ++ statsObjRef
        ++ ";</scr\x7bpt\x7dgarbage\x7b\x7b\x7b".data)
      = .ok ⟨mkRat 15 2, mkRat 23 10, mkRat 71 10, 1000⟩ :=
  jsonDecode_extracts_stats "<html>var x = ".data " = ".data
    ";</scr\x7bpt\x7dgarbage\x7b\x7b\x7b".data (by decide) (by decide)

end BGH
